import Mathlib

/-!
Verification of the core components of the backend aggregator:
the sliding-window `RateLimiter` (backend/utils.py) and the
degrade-gracefully `AISummaryService` (backend/services/ai_summary.py).

Python strings are embedded as `List Char`; timestamps as integers
(seconds); dictionaries keyed by strings as total maps with default `[]`.
-/

namespace Backend

/-! ## RateLimiter (utils.py, lines 207-237)

State: `max_requests`, `window_seconds` fixed at construction, plus the
per-key timestamp log `requests` (a Python dict; an absent key behaves
exactly like an empty list, since `is_allowed` materialises `[]` for a
missing key before doing anything else). -/

structure RateLimiter where
  max_requests : Nat
  window_seconds : Int
  requests : String → List Int

/-- Constructor `RateLimiter.__init__`: empty log. -/
def RateLimiter.init (max_requests : Nat) (window_seconds : Int) : RateLimiter :=
  ⟨max_requests, window_seconds, fun _ => []⟩

/-- The pruning list comprehension: keep `req_time` with
`now - req_time < timedelta(seconds=window_seconds)`. -/
def pruneLog (window_seconds : Int) (now : Int) (log : List Int) : List Int :=
  log.filter (fun req_time => now - req_time < window_seconds)

/-- Operation `RateLimiter.is_allowed(key)` at wall-clock time `now`: prune the key's
log, then admit (appending `now`) iff the pruned count is below the limit.
Returns the boolean outcome together with the mutated limiter. -/
def is_allowed (rl : RateLimiter) (key : String) (now : Int) : Bool × RateLimiter :=
  let pruned := pruneLog rl.window_seconds now (rl.requests key)
  if pruned.length < rl.max_requests then
    (true, { rl with requests := fun k => if k = key then pruned ++ [now] else rl.requests k })
  else
    (false, { rl with requests := fun k => if k = key then pruned else rl.requests k })

/-- Run a sequence of `is_allowed` calls, each given as (key, time). -/
def runCalls (rl : RateLimiter) : List (String × Int) → RateLimiter
  | [] => rl
  | (k, t) :: rest => runCalls (is_allowed rl k t).2 rest

/-- The list of outcomes of a sequence of `is_allowed` calls. -/
def runResults (rl : RateLimiter) : List (String × Int) → List Bool
  | [] => []
  | (k, t) :: rest => (is_allowed rl k t).1 :: runResults (is_allowed rl k t).2 rest

/-- The outcomes of the calls whose key is `k`, within a mixed trace. -/
def resultsOf (rl : RateLimiter) (calls : List (String × Int)) (k : String) : List Bool :=
  match calls with
  | [] => []
  | (k', t) :: rest =>
      if k' = k then (is_allowed rl k' t).1 :: resultsOf (is_allowed rl k' t).2 rest k
      else resultsOf (is_allowed rl k' t).2 rest k

/-! ## clean_text (utils.py, lines 28-46)

The regex pipeline, transcribed over `List Char`.  Each `re.sub` is a
left-to-right scan; scanners that jump past a removed match are written with
a fuel argument (fuel = input length always suffices, since every step
consumes at least one character) so that they reduce in the kernel. -/

/-- Python's `\s` / `str.strip()` whitespace, ASCII portion. -/
def isPySpace (c : Char) : Bool :=
  c = ' ' || c = '\t' || c = '\n' || c = '\r' || c = '\x0b' || c = '\x0c'

/-- Python `str.strip()`. -/
def pyStrip (l : List Char) : List Char :=
  ((l.dropWhile isPySpace).reverse.dropWhile isPySpace).reverse

/-- Scanner for `re.sub(r'<[^>]+>', '', text)`.  `buf?` is `none` in normal
mode; `some buf` means a `<` was seen and `buf` holds the (reversed)
characters read since.  A `>` with a nonempty buffer completes a match (the
whole `<...>` span is dropped); a `>` right after `<` means the `[^>]+` part
cannot match, so `<>` is kept and scanning resumes; end of input with a
pending buffer keeps everything (no `>` follows, so no match is possible
anywhere inside the buffered span). -/
def rtGo : Option (List Char) → List Char → List Char
  | none, [] => []
  | none, c :: cs => if c = '<' then rtGo (some []) cs else c :: rtGo none cs
  | some buf, [] => '<' :: buf.reverse
  | some buf, c :: cs =>
      if c = '>' then
        if buf.isEmpty then '<' :: '>' :: rtGo none cs
        else rtGo none cs
      else rtGo (some (c :: buf)) cs

def removeTags (l : List Char) : List Char := rtGo none l

/-- Scanner for `re.sub(r'\s+', ' ', text)`: every maximal whitespace run
becomes a single space. -/
def cwGo : Nat → List Char → List Char
  | 0, l => l
  | _ + 1, [] => []
  | fuel + 1, c :: cs =>
      if isPySpace c then ' ' :: cwGo fuel (cs.dropWhile isPySpace)
      else c :: cwGo fuel cs

def collapseWs (l : List Char) : List Char := cwGo l.length l

/-- Leftmost occurrence of `pat` in a list: `(before, afterMatch)`. -/
def findPat (pat : List Char) : List Char → Option (List Char × List Char)
  | [] => none
  | c :: cs =>
      if pat.isPrefixOf (c :: cs) then some ([], (c :: cs).drop pat.length)
      else
        match findPat pat cs with
        | some (pre, post) => some (c :: pre, post)
        | none => none

def fromPat : List Char := "From:".data
def subjPat : List Char := "Subject:".data

/-- Leftmost match of the non-greedy `From:.*?Subject:.*?\n` (DOTALL):
the leftmost `From:`, the first `Subject:` after it, the first newline after
that; if the first `Subject:` after the leftmost `From:` has no following
newline then no later start can have one either, so the whole search fails. -/
def tryFS (l : List Char) : Option (List Char × List Char) :=
  match findPat fromPat l with
  | none => none
  | some (pre1, rest1) =>
    match findPat subjPat rest1 with
    | none => none
    | some (_, rest2) =>
      match findPat ['\n'] rest2 with
      | none => none
      | some (_, rest3) => some (pre1, rest3)

/-- Transcribes `re.sub(r'From:.*?Subject:.*?\n', '', text, flags=re.DOTALL)`: remove
every (non-overlapping) match, continuing after each removal. -/
def rfsGo : Nat → List Char → List Char
  | 0, l => l
  | fuel + 1, l =>
      match tryFS l with
      | none => l
      | some (pre, post) => pre ++ rfsGo fuel post

def removeFromSubject (l : List Char) : List Char := rfsGo l.length l

/-- Transcribes `re.sub(r'--\s*\n.*', '', text, flags=re.DOTALL)`: at the leftmost `--`
whose following whitespace run contains a newline, everything from the `--`
to the end of the string is removed (the trailing `.*` with DOTALL eats the
rest). -/
def removeSig : List Char → List Char
  | [] => []
  | c :: cs =>
      if c = '-' then
        match cs with
        | d :: rest =>
            if d = '-' && (rest.takeWhile isPySpace).contains '\n' then []
            else c :: removeSig cs
        | [] => [c]
      else c :: removeSig cs

/-- One repetition unit of the URL regex body:
`(?:[a-zA-Z]|[0-9]|[$-_@.&+]|[!*\\(\\),]|(?:%[0-9a-fA-F][0-9a-fA-F]))`.
Every alternative consumes a single character from this set (the `%hh`
alternative is subsumed: `%` and hex digits all lie in `$`..`_`). -/
def urlChar (c : Char) : Bool :=
  c.isAlpha || c.isDigit || (0x24 ≤ c.toNat && c.toNat ≤ 0x5F) ||
    c = '!' || c = '*' || c = '\\' || c = '(' || c = ')' || c = ','

/-- Match `://` followed by at least one `urlChar` (greedy run). -/
def urlTail (l : List Char) : Option (List Char) :=
  match l with
  | c1 :: c2 :: c3 :: body =>
      if c1 = ':' && c2 = '/' && c3 = '/' then
        let run := body.takeWhile urlChar
        if run.isEmpty then none else some (body.drop run.length)
      else none
  | _ => none

/-- Match the whole URL regex `http[s]?://(...)+` at the head of `l`;
the greedy `[s]?` is tried with the `s` first, then without. -/
def matchUrlAt (l : List Char) : Option (List Char) :=
  match l with
  | c1 :: c2 :: c3 :: c4 :: rest =>
      if c1 = 'h' && c2 = 't' && c3 = 't' && c4 = 'p' then
        match rest with
        | c5 :: rest2 =>
            if c5 = 's' then
              match urlTail rest2 with
              | some r => some r
              | none => urlTail rest
            else urlTail rest
        | [] => none
      else none
  | _ => none

/-- Scanner for the URL `re.sub`: drop each match, continue after it. -/
def ruGo : Nat → List Char → List Char
  | 0, l => l
  | _ + 1, [] => []
  | fuel + 1, c :: cs =>
      match matchUrlAt (c :: cs) with
      | some rest => ruGo fuel rest
      | none => c :: ruGo fuel cs

def removeUrls (l : List Char) : List Char := ruGo l.length l

/-- Function `clean_text` (utils.py): HTML tags, whitespace collapse, header/signature
removal, URL removal, strip.  (`if not text: return ""` is the empty check.) -/
def clean_text (text : List Char) : List Char :=
  if text.isEmpty then []
  else pyStrip (removeUrls (removeSig (removeFromSubject (collapseWs (removeTags text)))))

/-! ## AISummaryService (services/ai_summary.py)

The summarizer handle (a `transformers` pipeline) is external to the
repository: it is embedded as an opaque function from the call arguments
`(text, max_length, min_length)` to either the pipeline's output list
(entries with a `summary_text` and an optional `score`) or a raised
exception.  Confidence scores are embedded as rationals (the code only ever
compares and stores constants: 0.0, 0.5, 0.8, 1.0 and the model's score).
Wall-clock `processing_time` is physical time and is not modelled.
The unused `classifier` handle is likewise omitted (no claim concerns it).
`max_length` is modelled as a natural number (the API schema default is
150). -/

structure ModelEntry where
  summary_text : List Char
  score : Option ℚ

/-- Opaque summarizer handle: `self.summarizer(text, max_length=..,
min_length=.., do_sample=False)`, which may raise. -/
def Model : Type := List Char → Nat → Nat → Except Unit (List ModelEntry)

structure AIService where
  summarizer : Option Model
  models_loaded : Bool
  loading : Bool

/-- Constructor `AISummaryService.__init__` (the background task fired by
`asyncio.create_task` has not run yet). -/
def AIService.init : AIService := ⟨none, false, false⟩

/-- Outcome of one run of `_load_models_sync`, external to the repository:
either both pipelines load (`success`), or an exception is raised
(`failure`); in the latter case the summarizer handle may already have been
assigned before the raise (the classifier loads second), carried in
`salvaged`. -/
inductive LoadOutcome where
  | success (m : Model)
  | failure (salvaged : Option Model)

/-- Coroutine `_load_models_async`: no-op while `_loading` or once `_models_loaded`;
otherwise runs a load attempt to completion — on success the handle is set
and `_models_loaded` becomes true; on failure the exception is swallowed
("continue without models") and the `finally` clause clears `_loading`. -/
def load_models_async (st : AIService) (o : LoadOutcome) : AIService :=
  if st.loading || st.models_loaded then st
  else
    match o with
    | .success m => { summarizer := some m, models_loaded := true, loading := false }
    | .failure s =>
        { summarizer := match s with | some m => some m | none => st.summarizer,
          models_loaded := st.models_loaded, loading := false }

structure SummarizationResponse where
  summary : List Char
  confidence_score : ℚ
  deriving DecidableEq

/-- The three-character ellipsis marker appended by the truncation
fallbacks. -/
def ellipsis : List Char := "...".data

/-- The `except`-branch fallback (lines 144-152): truncation of the ORIGINAL
`text` argument, not of `cleaned_text`. -/
def excFallback (text : List Char) (max_length : Nat) : List Char :=
  if max_length < text.length then text.take max_length ++ ellipsis else text

/-- Result of one `summarize_text` call: the returned response, the service
state afterwards, whether a model-load attempt ran (and was awaited) inside
this call, and whether the Ready-path inference was dispatched. -/
structure SummarizeTrace where
  response : SummarizationResponse
  state : AIService
  loadAwaited : Bool
  usedModel : Bool

/-- The `if not self._models_loaded: await self._load_models_async()` step. -/
def ensureLoaded (st : AIService) (o : LoadOutcome) : AIService :=
  if !st.models_loaded then load_models_async st o else st

/-- Operation `summarize_text(text, max_length)` given the service state `st` and the
external load outcome `o` (used if a load attempt runs inside this call).
Steps follow the source: empty/whitespace short-circuit; clean; short-input
shortcut; `await self._load_models_async()` when `_models_loaded` is false;
`if not self.summarizer` truncation fallback of the cleaned text with
confidence 0.5; otherwise dispatch to the model — a raised exception or a
failed `result[0]` indexing is caught and yields `excFallback` of the raw
text with confidence 0.0; on success `result[0]['summary_text']` and
`result[0].get('score', 0.8)`. -/
def summarize_text (st : AIService) (o : LoadOutcome) (text : List Char)
    (max_length : Nat) : SummarizeTrace :=
  if text.isEmpty || (pyStrip text).isEmpty then
    ⟨⟨[], 0⟩, st, false, false⟩
  else
    let cleaned_text := clean_text text
    if cleaned_text.length < 50 then
      ⟨⟨cleaned_text, 1⟩, st, false, false⟩
    else
      let st1 := ensureLoaded st o
      let awaited := !st.models_loaded && !st.loading
      match st1.summarizer with
      | none =>
          let fallback_summary :=
            if max_length < cleaned_text.length then cleaned_text.take max_length ++ ellipsis
            else cleaned_text
          ⟨⟨fallback_summary, 1/2⟩, st1, awaited, false⟩
      | some m =>
          let min_length := min 30 (cleaned_text.length / 4)
          match m cleaned_text max_length min_length with
          | .ok (entry :: _) => ⟨⟨entry.summary_text, entry.score.getD (4/5)⟩, st1, awaited, true⟩
          | .ok [] => ⟨⟨excFallback text max_length, 0⟩, st1, awaited, true⟩
          | .error _ => ⟨⟨excFallback text max_length, 0⟩, st1, awaited, true⟩

/-- Sample summarizer that always succeeds with a fixed summary. -/
def mOk : Model := fun _ _ _ => .ok [⟨"SUMMARY FROM MODEL".data, some 1⟩]

/-- Sample summarizer that always raises. -/
def mFail : Model := fun _ _ _ => .error ()

/-- Sample input: 60 plain characters (cleaning is the identity on it). -/
def aText : List Char := List.replicate 60 'a'

/-- Sample input whose cleaned form differs from the raw text: an HTML tag
followed by 60 plain characters. -/
def cxText : List Char := "<p>".data ++ List.replicate 60 'b'

/-! ## extract_tasks (services/ai_summary.py, lines 154-174)

Each of the five `task_patterns` regexes has the shape: an alternation of
literals, a separator, and either a captured `[^.!?]+` group or (for the
deadline pattern, which has no group) a `\w+day[^.!?]*` tail reported as the
whole match.  The alternatives of each alternation are pairwise
non-prefixes of one another, so at any position at most one alternative can
match and first-match-wins equals the regex engine's ordered choice.  The
greedy backtracking between `\s+`/`\s*` and `[^.!?]+` (whitespace given back
to the group when the group would otherwise be empty) and between `\w+` and
the literal `day` (the group takes the last `day` occurrence at index at
least 1 of the word run) is spelled out explicitly. -/

/-- Python regex `\w` (ASCII portion). -/
def isWordChar (c : Char) : Bool := c.isAlpha || c.isDigit || c = '_'

/-- The `[^.!?]` character class. -/
def notSentEnd (c : Char) : Bool := !(c = '.' || c = '!' || c = '?')

/-- Case-insensitive literal match at the head; returns the rest. -/
def matchLitCI : List Char → List Char → Option (List Char)
  | [], l => some l
  | _ :: _, [] => none
  | p :: ps, c :: cs => if c.toLower = p.toLower then matchLitCI ps cs else none

/-- Ordered alternation of literals. -/
def firstAlt (alts : List (List Char)) (l : List Char) : Option (List Char) :=
  match alts with
  | [] => none
  | a :: rest =>
      match matchLitCI a l with
      | some r => some r
      | none => firstAlt rest l

/-- The five `task_patterns`, in source order. -/
inductive TaskPattern where
  | imperative | marker | deadline | scheduling | reviewing
  deriving DecidableEq

def altsOf : TaskPattern → List (List Char)
  | .imperative => ["please".data, "can you".data, "could you".data, "need to".data,
      "have to".data, "must".data, "should".data]
  | .marker => ["action item".data, "todo".data, "task".data, "follow up".data]
  | .deadline => ["by".data, "before".data, "until".data]
  | .scheduling => ["schedule".data, "book".data, "arrange".data, "set up".data,
      "organize".data]
  | .reviewing => ["review".data, "check".data, "verify".data, "confirm".data,
      "update".data]

/-- Match `\s+([^.!?]+)` at the head of `r`: greedy whitespace, then the
greedy group; if the group would be empty, one whitespace character is given
back to the group (possible only when the run has at least 2 characters).
Returns (captured group, rest after the match). -/
def wsGroup (r : List Char) : Option (List Char × List Char) :=
  let ws := r.takeWhile isPySpace
  if ws.isEmpty then none
  else
    let afterWs := r.drop ws.length
    let g := afterWs.takeWhile notSentEnd
    if !g.isEmpty then some (g, afterWs.drop g.length)
    else if 2 ≤ ws.length then some ([(ws.getLast?).getD ' '], afterWs)
    else none

/-- Match `:\s*([^.!?]+)` at the head of `r` (the marker pattern's
separator): like `wsGroup` but the whitespace run may be empty and giving
one character back needs only a run of length 1. -/
def colonGroup (r : List Char) : Option (List Char × List Char) :=
  match r with
  | ':' :: r2 =>
      let ws := r2.takeWhile isPySpace
      let afterWs := r2.drop ws.length
      let g := afterWs.takeWhile notSentEnd
      if !g.isEmpty then some (g, afterWs.drop g.length)
      else if 1 ≤ ws.length then some ([(ws.getLast?).getD ' '], afterWs)
      else none
  | _ => none

/-- Does `day` (case-insensitive) occur at index `k` of `W`? -/
def dayAt (W : List Char) (k : Nat) : Bool :=
  ((W.drop k).take 3).map Char.toLower = ['d', 'a', 'y']

/-- The backtracking of `\w+day`: the largest `k ≥ 1` with `day` at index
`k` of the word run. -/
def lastDayIdx (W : List Char) : Option Nat :=
  (List.range W.length).reverse.find? (fun k => decide (1 ≤ k) && dayAt W k)

/-- Match `\s+\w+day[^.!?]*` at the head of `r`; returns the rest after the
match (the caller reports the whole match, as the pattern has no group). -/
def deadlineTail (r : List Char) : Option (List Char) :=
  let ws := r.takeWhile isPySpace
  if ws.isEmpty then none
  else
    let afterWs := r.drop ws.length
    let W := afterWs.takeWhile isWordChar
    match lastDayIdx W with
    | none => none
    | some k =>
        let afterDay := afterWs.drop (k + 3)
        some (afterDay.drop (afterDay.takeWhile notSentEnd).length)

/-- Try to match pattern `p` at the head of `l`: returns the string that
`re.findall` reports (the group, or for the group-less deadline pattern the
whole match) and the rest of the input after the match. -/
def matchAt (p : TaskPattern) (l : List Char) : Option (List Char × List Char) :=
  match firstAlt (altsOf p) l with
  | none => none
  | some r =>
      match p with
      | .marker => colonGroup r
      | .deadline =>
          match deadlineTail r with
          | some rest => some (l.take (l.length - rest.length), rest)
          | none => none
      | _ => wsGroup r

/-- The `re.findall` scan: non-overlapping left-to-right matches, resuming
after each match. -/
def findallGo (p : TaskPattern) : Nat → List Char → List (List Char)
  | 0, _ => []
  | _ + 1, [] => []
  | fuel + 1, c :: cs =>
      match matchAt p (c :: cs) with
      | some (rep, rest) => rep :: findallGo p fuel rest
      | none => findallGo p fuel cs

def findall (p : TaskPattern) (l : List Char) : List (List Char) := findallGo p l.length l

def task_patterns : List TaskPattern :=
  [.imperative, .marker, .deadline, .scheduling, .reviewing]

/-- The body of the inner loop of `extract_tasks`: strip the match, keep it
when longer than 10 characters and not already present. -/
def addTask (tasks : List (List Char)) (mtch : List Char) : List (List Char) :=
  let task := pyStrip mtch
  if 10 < task.length ∧ ¬ task ∈ tasks then tasks ++ [task] else tasks

/-- Operation `extract_tasks(text)`: accumulate over the patterns in order, then
`tasks[:5]`. -/
def extract_tasks (text : List Char) : List (List Char) :=
  (task_patterns.foldl (fun tasks p => (findall p text).foldl addTask tasks) []).take 5

/-! ## analyze_calendar_efficiency (services/ai_summary.py, lines 203-229)

The returned dict is embedded as a structure whose
`estimated_meeting_hours` field is an `Option`: `none` models the key being
absent from the returned dict (which is the case on the empty-input branch).
Event records are ignored except for their count, so the event type is a
parameter. -/

structure EfficiencyResult where
  total_meetings : Nat
  estimated_meeting_hours : Option Nat
  suggestions : List String
  deriving DecidableEq

def overSixHoursWarning : String :=
  "Consider reducing meeting time - you have over 6 hours of meetings"

def highDensityWarning : String :=
  "High meeting density - consider batching similar meetings"

def analyze_calendar_efficiency {α : Type} (events : List α) : EfficiencyResult :=
  if events.isEmpty then ⟨0, none, []⟩
  else
    let total_meetings := events.length
    let meeting_hours := events.foldl (fun acc _ => acc + 1) 0
    ⟨total_meetings, some meeting_hours,
      (if 6 < meeting_hours then [overSixHoursWarning] else []) ++
        (if 8 < total_meetings then [highDensityWarning] else [])⟩

theorem is_allowed_requests_self (rl : RateLimiter) (key : String) (now : Int) :
    (is_allowed rl key now).2.requests key =
      (if (pruneLog rl.window_seconds now (rl.requests key)).length < rl.max_requests
       then pruneLog rl.window_seconds now (rl.requests key) ++ [now]
       else pruneLog rl.window_seconds now (rl.requests key)) := by
  unfold is_allowed
  by_cases h : (pruneLog rl.window_seconds now (rl.requests key)).length < rl.max_requests <;>
    simp [h]

theorem is_allowed_requests_other (rl : RateLimiter) (k1 k2 : String) (now : Int)
    (h : k1 ≠ k2) : (is_allowed rl k1 now).2.requests k2 = rl.requests k2 := by
  unfold is_allowed
  by_cases hlt : (pruneLog rl.window_seconds now (rl.requests k1)).length < rl.max_requests <;>
    simp [hlt, (Ne.symm h)]

theorem is_allowed_fst (rl : RateLimiter) (key : String) (now : Int) :
    (is_allowed rl key now).1 =
      decide ((pruneLog rl.window_seconds now (rl.requests key)).length < rl.max_requests) := by
  unfold is_allowed
  by_cases h : (pruneLog rl.window_seconds now (rl.requests key)).length < rl.max_requests <;>
    simp [h]

theorem is_allowed_params (rl : RateLimiter) (key : String) (now : Int) :
    (is_allowed rl key now).2.max_requests = rl.max_requests ∧
      (is_allowed rl key now).2.window_seconds = rl.window_seconds := by
  unfold is_allowed
  by_cases h : (pruneLog rl.window_seconds now (rl.requests key)).length < rl.max_requests <;>
    simp [h]

/-- The per-key log length never exceeds `max_requests` after a call,
provided it did not before. -/
theorem is_allowed_length_bound (rl : RateLimiter) (key k : String) (now : Int)
    (h : (rl.requests k).length ≤ rl.max_requests) :
    ((is_allowed rl key now).2.requests k).length ≤ rl.max_requests := by
  by_cases hk : key = k
  · subst hk
    rw [is_allowed_requests_self]
    by_cases hlt : (pruneLog rl.window_seconds now (rl.requests key)).length < rl.max_requests
    · simp only [hlt, if_true, List.length_append, List.length_cons, List.length_nil]
      omega
    · simp only [hlt, if_false]
      calc (pruneLog rl.window_seconds now (rl.requests key)).length
          ≤ (rl.requests key).length := List.length_filter_le _ _
        _ ≤ rl.max_requests := h
  · rw [is_allowed_requests_other rl key k now hk]
    exact h

theorem runCalls_params (calls : List (String × Int)) :
    ∀ rl : RateLimiter, (runCalls rl calls).max_requests = rl.max_requests ∧
      (runCalls rl calls).window_seconds = rl.window_seconds := by
  induction calls with
  | nil => intro rl; exact ⟨rfl, rfl⟩
  | cons c rest ih =>
      intro rl
      obtain ⟨k, t⟩ := c
      have h := ih (is_allowed rl k t).2
      have hp := is_allowed_params rl k t
      exact ⟨h.1.trans hp.1, h.2.trans hp.2⟩

theorem runResults_append (xs ys : List (String × Int)) :
    ∀ rl : RateLimiter,
      runResults rl (xs ++ ys) = runResults rl xs ++ runResults (runCalls rl xs) ys := by
  induction xs with
  | nil => intro rl; simp [runResults, runCalls]
  | cons c rest ih =>
      intro rl
      obtain ⟨k, t⟩ := c
      simp [runResults, runCalls, ih]

/-- Running a block of same-key calls whose times all lie inside the window of
every earlier retained timestamp admits every call and appends every time. -/
theorem run_all_true (key : String) (N : Nat) (W : Int) (ts : List Int) :
    ∀ (acc : List Int) (rl : RateLimiter),
      rl.max_requests = N → rl.window_seconds = W → rl.requests key = acc →
      (∀ a ∈ acc ++ ts, ∀ t ∈ ts, t - a < W) →
      acc.length + ts.length ≤ N →
      runResults rl (ts.map (fun t => (key, t))) = List.replicate ts.length true ∧
      (runCalls rl (ts.map (fun t => (key, t)))).requests key = acc ++ ts := by
  induction ts with
  | nil =>
      intro acc rl _ _ hreq _ _
      simp [runResults, runCalls, hreq]
  | cons t ts' ih =>
      intro acc rl hmax hwin hreq hall hlen
      have hpruned : pruneLog rl.window_seconds t (rl.requests key) = acc := by
        rw [hreq, pruneLog, List.filter_eq_self]
        intro a ha
        simp only [decide_eq_true_eq]
        rw [hwin]
        exact hall a (List.mem_append_left _ ha) t (List.mem_cons_self _ _)
      have hlt : (pruneLog rl.window_seconds t (rl.requests key)).length < rl.max_requests := by
        rw [hpruned, hmax]
        simp only [List.length_cons] at hlen
        omega
      have hfst : (is_allowed rl key t).1 = true := by
        rw [is_allowed_fst, decide_eq_true_eq]
        exact hlt
      have hreq1 : (is_allowed rl key t).2.requests key = acc ++ [t] := by
        rw [is_allowed_requests_self, if_pos hlt, hpruned]
      have hp := is_allowed_params rl key t
      have hrec := ih (acc ++ [t]) (is_allowed rl key t).2 (hp.1.trans hmax)
        (hp.2.trans hwin) hreq1
        (by
          intro a ha u hu
          apply hall a _ u (List.mem_cons_of_mem _ hu)
          rw [List.append_assoc] at ha
          simpa using ha)
        (by simp only [List.length_append, List.length_cons, List.length_nil] at hlen ⊢; omega)
      refine ⟨?_, ?_⟩
      · simp only [List.map_cons, runResults, hfst, List.length_cons]
        rw [hrec.1, List.replicate_succ]
      · simp only [List.map_cons, runCalls]
        rw [hrec.2, List.append_assoc]
        rfl

/-- C1: Sliding-window admission.  (a) Each `is_allowed(key)` call prunes
the key's stored timestamps of age `≥ window_seconds`, returns true (appending
the current timestamp) iff the pruned count is below `max_requests`, and on
rejection leaves exactly the pruned sequence.  (b) Starting from a fresh
limiter with `max_requests = N`, a run of `N + 1` same-key calls at
nondecreasing times, all within `W` seconds of the first, admits the first `N`
and rejects the `(N+1)`-th.  (c) A call finding every stored timestamp of the
key at age `≥ window_seconds` is admitted again (for a positive limit). -/
theorem sliding_window_admission :
    (∀ (rl : RateLimiter) (key : String) (now : Int),
      (is_allowed rl key now).1 =
        decide ((pruneLog rl.window_seconds now (rl.requests key)).length < rl.max_requests) ∧
      (is_allowed rl key now).2.requests key =
        pruneLog rl.window_seconds now (rl.requests key) ++
          (if (pruneLog rl.window_seconds now (rl.requests key)).length < rl.max_requests
           then [now] else [])) ∧
    (∀ (N : Nat) (W : Int) (key : String) (t0 : Int) (rest : List Int),
      1 ≤ N → rest.length = N → List.Sorted (· ≤ ·) (t0 :: rest) →
      (∀ t ∈ t0 :: rest, t - t0 < W) →
      runResults (RateLimiter.init N W) ((t0 :: rest).map (fun t => (key, t))) =
        List.replicate N true ++ [false]) ∧
    (∀ (rl : RateLimiter) (key : String) (now : Int),
      1 ≤ rl.max_requests → (∀ t ∈ rl.requests key, rl.window_seconds ≤ now - t) →
      (is_allowed rl key now).1 = true) := by
  refine ⟨?_, ?_, ?_⟩
  · intro rl key now
    refine ⟨is_allowed_fst rl key now, ?_⟩
    rw [is_allowed_requests_self]
    by_cases h : (pruneLog rl.window_seconds now (rl.requests key)).length < rl.max_requests <;>
      simp [h]
  · intro N W key t0 rest hN hlen hsort hwin
    have hne : (t0 :: rest) ≠ [] := List.cons_ne_nil _ _
    have hsplit : (t0 :: rest).dropLast ++ [(t0 :: rest).getLast hne] = t0 :: rest :=
      List.dropLast_append_getLast hne
    set front := (t0 :: rest).dropLast with hfront
    set tlast := (t0 :: rest).getLast hne with htlast
    have hfrontlen : front.length = N := by
      have := congrArg List.length hsplit
      simp only [List.length_append, List.length_cons, List.length_nil] at this
      simp only [hlen, List.length_cons] at this ⊢
      omega
    have hmemfull : ∀ a ∈ front, a ∈ t0 :: rest := by
      intro a ha
      rw [← hsplit]
      exact List.mem_append_left _ ha
    have hlow : ∀ a ∈ t0 :: rest, t0 ≤ a := by
      intro a ha
      rcases List.mem_cons.mp ha with h | h
      · exact le_of_eq h.symm
      · exact (List.sorted_cons.mp hsort).1 a h
    have hpairs : ∀ a ∈ ([] : List Int) ++ front, ∀ t ∈ front, t - a < W := by
      intro a ha t ht
      simp only [List.nil_append] at ha
      have h1 : t0 ≤ a := hlow a (hmemfull a ha)
      have h2 : t - t0 < W := hwin t (hmemfull t ht)
      omega
    have hmain := run_all_true key N W front [] (RateLimiter.init N W) rfl rfl rfl hpairs
      (by simp [hfrontlen])
    have hparams := runCalls_params (front.map (fun t => (key, t))) (RateLimiter.init N W)
    set rlN := runCalls (RateLimiter.init N W) (front.map (fun t => (key, t))) with hrlN
    have hNmax : rlN.max_requests = N := by rw [hparams.1]; rfl
    have hWwin : rlN.window_seconds = W := by rw [hparams.2]; rfl
    have hlastfalse : (is_allowed rlN key tlast).1 = false := by
      have hprune : pruneLog rlN.window_seconds tlast (rlN.requests key) = front := by
        rw [hmain.2, List.nil_append, hWwin, pruneLog, List.filter_eq_self]
        intro a ha
        simp only [decide_eq_true_eq]
        have h1 : t0 ≤ a := hlow a (hmemfull a ha)
        have h2 : tlast - t0 < W := hwin tlast (by rw [← hsplit]; simp)
        omega
      rw [is_allowed_fst, hprune, hfrontlen, hNmax]
      simp
    conv_lhs => rw [← hsplit]
    rw [List.map_append, runResults_append, hmain.1, hfrontlen, ← hrlN]
    simp [runResults, hlastfalse]
  · intro rl key now hN hold
    have hprune : pruneLog rl.window_seconds now (rl.requests key) = [] := by
      rw [pruneLog, List.filter_eq_nil_iff]
      intro t ht
      simp only [decide_eq_true_eq, not_lt]
      exact hold t ht
    rw [is_allowed_fst, hprune]
    simpa using hN

/-- Witness for C1: with `N = 2`, `W = 10`, calls at times 0, 1, 2 the
outcomes are true, true, false; and a limiter holding one timestamp of age
exactly the window admits again. -/
theorem sliding_window_admission_witness :
    runResults (RateLimiter.init 2 10) (([0, 1, 2] : List Int).map (fun t => ("client", t))) =
      [true, true, false] ∧
    (is_allowed ⟨1, 5, fun _ => [0]⟩ "client" 5).1 = true := by
  constructor
  · have h := sliding_window_admission.2.1 2 10 "client" 0 [1, 2] (by decide) (by decide)
      (by decide) (by decide)
    simpa using h
  · exact sliding_window_admission.2.2 ⟨1, 5, fun _ => [0]⟩ "client" 5 (by decide) (by decide)

/-- C4: Rate-limiter log-size invariant: starting from a fresh limiter,
after any sequence of `is_allowed` calls, every key's retained-timestamp count
is at most `max_requests`. -/
theorem log_size_invariant (N : Nat) (W : Int) (calls : List (String × Int)) (key : String) :
    ((runCalls (RateLimiter.init N W) calls).requests key).length ≤ N := by
  suffices h : ∀ rl : RateLimiter, (∀ k, (rl.requests k).length ≤ rl.max_requests) →
      ∀ k, ((runCalls rl calls).requests k).length ≤ rl.max_requests by
    exact h (RateLimiter.init N W) (fun k => by simp [RateLimiter.init]) key
  induction calls with
  | nil => intro rl h k; exact h k
  | cons c rest ih =>
      intro rl h k
      obtain ⟨k', t⟩ := c
      have hstep : ∀ k, (((is_allowed rl k' t).2).requests k).length ≤
          ((is_allowed rl k' t).2).max_requests := by
        intro k0
        rw [(is_allowed_params rl k' t).1]
        exact is_allowed_length_bound rl k' k0 t (h k0)
      have := ih (is_allowed rl k' t).2 hstep k
      rwa [(is_allowed_params rl k' t).1] at this

theorem runResults_congr_key (k : String) (calls : List (String × Int))
    (hk : ∀ c ∈ calls, c.1 = k) :
    ∀ rl rl' : RateLimiter, rl.max_requests = rl'.max_requests →
      rl.window_seconds = rl'.window_seconds → rl.requests k = rl'.requests k →
      runResults rl calls = runResults rl' calls := by
  induction calls with
  | nil => intro rl rl' _ _ _; rfl
  | cons c rest ih =>
      intro rl rl' h1 h2 h3
      obtain ⟨k', t⟩ := c
      have hkk : k' = k := hk (k', t) (List.mem_cons_self _ _)
      subst hkk
      have hfst : (is_allowed rl k' t).1 = (is_allowed rl' k' t).1 := by
        rw [is_allowed_fst, is_allowed_fst, h1, h2, h3]
      have hself : (is_allowed rl k' t).2.requests k' = (is_allowed rl' k' t).2.requests k' := by
        rw [is_allowed_requests_self, is_allowed_requests_self, h1, h2, h3]
      have hp := is_allowed_params rl k' t
      have hp' := is_allowed_params rl' k' t
      simp only [runResults]
      rw [hfst, ih (fun c hc => hk c (List.mem_cons_of_mem _ hc)) _ _
        (hp.1.trans (h1.trans hp'.1.symm)) (hp.2.trans (h2.trans hp'.2.symm)) hself]

/-- C8: Per-key independence: a call on `k1` leaves the stored sequence of
any other key `k2` unchanged; and in any mixed trace, the outcomes observed by
key `k2` equal the outcomes of running only the `k2`-calls — so calls on other
keys (in particular exhausting their quota) never affect `k2`. -/
theorem per_key_independence :
    (∀ (rl : RateLimiter) (k1 k2 : String) (now : Int), k1 ≠ k2 →
      (is_allowed rl k1 now).2.requests k2 = rl.requests k2) ∧
    (∀ (rl : RateLimiter) (calls : List (String × Int)) (k2 : String),
      resultsOf rl calls k2 = runResults rl (calls.filter (fun c => c.1 = k2))) := by
  constructor
  · exact fun rl k1 k2 now h => is_allowed_requests_other rl k1 k2 now h
  · intro rl calls k2
    induction calls generalizing rl with
    | nil => rfl
    | cons c rest ih =>
        obtain ⟨k', t⟩ := c
        by_cases hkk : k' = k2
        · subst hkk
          simp only [resultsOf, List.filter_cons, decide_eq_true_eq, if_pos rfl, if_pos trivial,
            runResults]
          rw [ih]
        · simp only [resultsOf, if_neg hkk, List.filter_cons]
          have : (decide (k' = k2)) = false := decide_eq_false hkk
          rw [this]
          simp only [ite_false, Bool.false_eq_true]
          rw [ih]
          have hfil : ∀ c ∈ rest.filter (fun c => decide (c.1 = k2)), c.1 = k2 := by
            intro c hc
            have := List.of_mem_filter hc
            simpa using this
          have hp := is_allowed_params rl k' t
          exact runResults_congr_key k2 _ hfil _ _ hp.1 hp.2
            (is_allowed_requests_other rl k' k2 t hkk)

/-- Witness for C8: exhausting key "a" (limit 1) leaves key "b"'s log
untouched. -/
theorem per_key_independence_witness :
    (is_allowed (RateLimiter.init 1 10) "a" 0).2.requests "b" =
      (RateLimiter.init 1 10).requests "b" :=
  per_key_independence.1 (RateLimiter.init 1 10) "a" "b" 0 (by decide)

/-! Auxiliary facts: a text whose `clean_text` result has 50 or more
characters cannot be empty or whitespace-only, so the Step-1 short-circuit
is not taken. -/

theorem pyStrip_eq_nil_all_space {l : List Char} (h : pyStrip l = []) :
    ∀ c ∈ l, isPySpace c := by
  unfold pyStrip at h
  have h2 : (l.dropWhile isPySpace).reverse.dropWhile isPySpace = [] := by
    have := congrArg List.reverse h
    simpa using this
  have h3 : ∀ c ∈ (l.dropWhile isPySpace).reverse, isPySpace c :=
    List.dropWhile_eq_nil_iff.mp h2
  have h4 : ∀ c ∈ l.dropWhile isPySpace, isPySpace c := by
    intro c hc
    exact h3 c (List.mem_reverse.mpr hc)
  intro c hc
  rw [← List.takeWhile_append_dropWhile (p := isPySpace) (l := l)] at hc
  rcases List.mem_append.mp hc with h | h
  · exact List.mem_takeWhile_imp h
  · exact h4 c h

theorem rtGo_id_of_no_lt {l : List Char} (h : ∀ c ∈ l, c ≠ '<') :
    rtGo none l = l := by
  induction l with
  | nil => rfl
  | cons c cs ih =>
      unfold rtGo
      rw [if_neg]
      · rw [ih (fun d hd => h d (List.mem_cons_of_mem _ hd))]
      · simp only [← ne_eq]
        exact h c (List.mem_cons_self _ _)

theorem cwGo_nil (fuel : Nat) : cwGo fuel [] = [] := by
  cases fuel <;> rfl

theorem collapseWs_all_space {l : List Char} (h : ∀ c ∈ l, isPySpace c) :
    collapseWs l = [] ∨ collapseWs l = [' '] := by
  unfold collapseWs
  cases l with
  | nil => left; rfl
  | cons c cs =>
      right
      have hdrop : cs.dropWhile isPySpace = [] :=
        List.dropWhile_eq_nil_iff.mpr (fun d hd => h d (List.mem_cons_of_mem _ hd))
      simp only [List.length_cons, cwGo, if_pos (h c (List.mem_cons_self _ _)), hdrop,
        cwGo_nil]

theorem clean_text_blank {text : List Char}
    (h : (text.isEmpty || (pyStrip text).isEmpty) = true) : clean_text text = [] := by
  rcases Bool.or_eq_true_iff.mp h with h | h
  · unfold clean_text
    rw [if_pos h]
  · have hall : ∀ c ∈ text, isPySpace c :=
      pyStrip_eq_nil_all_space (List.isEmpty_iff.mp h)
    have hne : text.isEmpty = false ∨ text.isEmpty = true := by
      cases text.isEmpty <;> simp
    rcases hne with hne | hne
    · unfold clean_text
      rw [if_neg (by simp [hne])]
      have htags : removeTags text = text := by
        unfold removeTags
        exact rtGo_id_of_no_lt (fun c hc hlt => by
          have := hall c hc
          subst hlt
          simp [isPySpace] at this)
      rw [htags]
      rcases collapseWs_all_space hall with hcw | hcw <;> rw [hcw] <;> rfl
    · unfold clean_text
      rw [if_pos hne]

theorem not_blank_of_50 {text : List Char} (h : 50 ≤ (clean_text text).length) :
    (text.isEmpty || (pyStrip text).isEmpty) = false := by
  by_contra hne
  have : (text.isEmpty || (pyStrip text).isEmpty) = true := by
    cases hb : (text.isEmpty || (pyStrip text).isEmpty)
    · exact absurd hb hne
    · rfl
  rw [clean_text_blank this] at h
  simp at h

/-! Branch equations for `summarize_text`. -/

theorem summarize_blank (st : AIService) (o : LoadOutcome) (text : List Char) (max_length : Nat)
    (h : (text.isEmpty || (pyStrip text).isEmpty) = true) :
    summarize_text st o text max_length = ⟨⟨[], 0⟩, st, false, false⟩ := by
  unfold summarize_text
  rw [if_pos h]

theorem summarize_short (st : AIService) (o : LoadOutcome) (text : List Char) (max_length : Nat)
    (h1 : (text.isEmpty || (pyStrip text).isEmpty) = false)
    (h2 : (clean_text text).length < 50) :
    summarize_text st o text max_length = ⟨⟨clean_text text, 1⟩, st, false, false⟩ := by
  unfold summarize_text
  rw [if_neg (by simp [h1])]
  dsimp only
  rw [if_pos h2]

theorem summarize_main_none (st : AIService) (o : LoadOutcome) (text : List Char)
    (max_length : Nat) (h1 : (text.isEmpty || (pyStrip text).isEmpty) = false)
    (h2 : 50 ≤ (clean_text text).length) (hna : (ensureLoaded st o).summarizer = none) :
    summarize_text st o text max_length =
      ⟨⟨if max_length < (clean_text text).length then (clean_text text).take max_length ++ ellipsis
        else clean_text text, 1/2⟩, ensureLoaded st o, !st.models_loaded && !st.loading, false⟩ := by
  unfold summarize_text
  rw [if_neg (by simp [h1])]
  dsimp only
  rw [if_neg (by omega), hna]

theorem summarize_main_some (st : AIService) (o : LoadOutcome) (text : List Char)
    (max_length : Nat) (h1 : (text.isEmpty || (pyStrip text).isEmpty) = false)
    (h2 : 50 ≤ (clean_text text).length) (m : Model)
    (hm : (ensureLoaded st o).summarizer = some m) :
    summarize_text st o text max_length =
      match m (clean_text text) max_length (min 30 ((clean_text text).length / 4)) with
      | .ok (entry :: _) =>
          ⟨⟨entry.summary_text, entry.score.getD (4/5)⟩, ensureLoaded st o,
            !st.models_loaded && !st.loading, true⟩
      | .ok [] =>
          ⟨⟨excFallback text max_length, 0⟩, ensureLoaded st o,
            !st.models_loaded && !st.loading, true⟩
      | .error _ =>
          ⟨⟨excFallback text max_length, 0⟩, ensureLoaded st o,
            !st.models_loaded && !st.loading, true⟩ := by
  unfold summarize_text
  rw [if_neg (by simp [h1])]
  dsimp only
  rw [if_neg (by omega), hm]

theorem summarize_main_awaited (st : AIService) (o : LoadOutcome) (text : List Char)
    (max_length : Nat) (h1 : (text.isEmpty || (pyStrip text).isEmpty) = false)
    (h2 : 50 ≤ (clean_text text).length) :
    (summarize_text st o text max_length).loadAwaited = (!st.models_loaded && !st.loading) ∧
    (summarize_text st o text max_length).state = ensureLoaded st o := by
  rcases hs : (ensureLoaded st o).summarizer with _ | m
  · rw [summarize_main_none st o text max_length h1 h2 hs]
    exact ⟨rfl, rfl⟩
  · rw [summarize_main_some st o text max_length h1 h2 m hs]
    cases hr : m (clean_text text) max_length (min 30 ((clean_text text).length / 4)) with
    | ok l =>
        cases l with
        | nil => exact ⟨rfl, rfl⟩
        | cons e es => exact ⟨rfl, rfl⟩
    | error e => exact ⟨rfl, rfl⟩

theorem ensureLoaded_of_loading (st : AIService) (o : LoadOutcome) (h : st.loading = true) :
    ensureLoaded st o = st := by
  unfold ensureLoaded
  cases hml : st.models_loaded
  · have hload : load_models_async st o = st := by
      unfold load_models_async
      rw [h]
      simp
    simp [hload]
  · simp

theorem ensureLoaded_of_loaded (st : AIService) (o : LoadOutcome) (h : st.models_loaded = true) :
    ensureLoaded st o = st := by
  unfold ensureLoaded
  rw [h]
  simp

/-- C6: Model-unavailable fallback.  When the cleaned text has at least 50
characters and the summarizer handle is still absent after the opportunistic
load step (Failed, or still Loading/Unloaded), the response is the first
`max_length` characters of the cleaned text, with the ellipsis marker
appended exactly when the cleaned text is longer than `max_length`, and
confidence 0.5. -/
theorem model_unavailable_fallback (st : AIService) (o : LoadOutcome) (text : List Char)
    (max_length : Nat) (hlen : 50 ≤ (clean_text text).length)
    (hna : (ensureLoaded st o).summarizer = none) :
    (summarize_text st o text max_length).response =
      ⟨if max_length < (clean_text text).length
        then (clean_text text).take max_length ++ ellipsis else clean_text text, 1/2⟩ := by
  rw [summarize_main_none st o text max_length (not_blank_of_50 hlen) hlen hna]

/-- Witness for C6 at a Loading-state service and a 60-character input. -/
theorem model_unavailable_fallback_witness :
    (summarize_text ⟨none, false, true⟩ (.failure none) aText 10).response =
      ⟨if 10 < (clean_text aText).length then (clean_text aText).take 10 ++ ellipsis
       else clean_text aText, 1/2⟩ :=
  model_unavailable_fallback ⟨none, false, true⟩ (.failure none) aText 10 (by decide) rfl

/-- Counterexample to C2: from the state where no load is in flight and
models are not loaded (e.g. the constructor's background task has not run, or
a previous attempt failed), a `summarize_text` call with a not-Ready model
and cleaned input of 60 characters runs the load attempt to completion
inline (awaiting it), and — the load having succeeded — returns the model's
inference result, not the truncation fallback. -/
theorem nonblocking_fallthrough_counterexample :
    AIService.init.summarizer = none ∧
    50 ≤ (clean_text aText).length ∧
    (summarize_text AIService.init (.success mOk) aText 150).loadAwaited = true ∧
    (summarize_text AIService.init (.success mOk) aText 150).usedModel = true ∧
    (summarize_text AIService.init (.success mOk) aText 150).response.summary ≠
      clean_text aText ∧
    (summarize_text AIService.init (.success mOk) aText 150).response.confidence_score = 1 ∧
    (1 : ℚ) ≠ 1/2 :=
  ⟨rfl, by decide, by decide, by decide, by decide, rfl, by norm_num⟩

/-- C2 (amended): the fall-through is non-blocking only when a load attempt
is already in flight (the `_loading` flag is set, as after the constructor's
background task has begun): then the `await self._load_models_async()` is a
no-op, the call does not run a load, leaves the state unchanged, dispatches
no inference, and returns the truncation fallback with confidence 0.5.
When instead no load is in flight and models are not loaded, the call awaits
a full load attempt inline (see the counterexample). -/
theorem load_in_flight_nonblocking (st : AIService) (o : LoadOutcome) (text : List Char)
    (max_length : Nat) (hload : st.loading = true) (hna : st.summarizer = none)
    (hlen : 50 ≤ (clean_text text).length) :
    (summarize_text st o text max_length).loadAwaited = false ∧
    (summarize_text st o text max_length).state = st ∧
    (summarize_text st o text max_length).usedModel = false ∧
    (summarize_text st o text max_length).response =
      ⟨if max_length < (clean_text text).length
        then (clean_text text).take max_length ++ ellipsis else clean_text text, 1/2⟩ := by
  have he : ensureLoaded st o = st := ensureLoaded_of_loading st o hload
  have hna' : (ensureLoaded st o).summarizer = none := by rw [he]; exact hna
  rw [summarize_main_none st o text max_length (not_blank_of_50 hlen) hlen hna']
  refine ⟨?_, he, rfl, rfl⟩
  rw [hload]
  simp

/-- Witness for the amended C2: a Loading-state service falls through
without running a load. -/
theorem load_in_flight_nonblocking_witness :
    (summarize_text ⟨none, false, true⟩ (.success mOk) aText 150).loadAwaited = false ∧
    (summarize_text ⟨none, false, true⟩ (.success mOk) aText 150).state = ⟨none, false, true⟩ ∧
    (summarize_text ⟨none, false, true⟩ (.success mOk) aText 150).usedModel = false ∧
    (summarize_text ⟨none, false, true⟩ (.success mOk) aText 150).response =
      ⟨if 150 < (clean_text aText).length then (clean_text aText).take 150 ++ ellipsis
       else clean_text aText, 1/2⟩ :=
  load_in_flight_nonblocking ⟨none, false, true⟩ (.success mOk) aText 150 rfl rfl (by decide)

/-- Counterexample to C3: after a load attempt fails, the service records no
Failed state — both flags are back to false and the summarizer handle is
absent, exactly as before any attempt — and the next `summarize_text` call
automatically re-runs a load attempt, which can even succeed (here
`models_loaded` becomes true and the model is used), without any deliberate
manual re-trigger. -/
theorem failed_state_counterexample :
    (load_models_async AIService.init (.failure none)).summarizer = none ∧
    (load_models_async AIService.init (.failure none)).models_loaded = false ∧
    (load_models_async AIService.init (.failure none)).loading = false ∧
    (summarize_text (load_models_async AIService.init (.failure none))
      (.success mOk) aText 150).loadAwaited = true ∧
    (summarize_text (load_models_async AIService.init (.failure none))
      (.success mOk) aText 150).state.models_loaded = true ∧
    (summarize_text (load_models_async AIService.init (.failure none))
      (.success mOk) aText 150).usedModel = true :=
  ⟨rfl, by decide, by decide, by decide, by decide, by decide⟩

/-- C3 (amended): the code records no Failed state.  A failed load attempt
leaves `_models_loaded` and `_loading` both false; only a successful load is
permanent — once `_models_loaded` is true, `summarize_text` never changes the
state and never runs a load.  While models are not loaded and no load is in
flight, every `summarize_text` call whose cleaned text reaches the load step
re-runs an awaited load attempt (so a Failed outcome is re-tried
automatically, not only by deliberate manual re-trigger). -/
theorem load_outcome_permanence :
    (∀ (st : AIService) (s : Option Model), st.loading = false → st.models_loaded = false →
      (load_models_async st (.failure s)).models_loaded = false ∧
      (load_models_async st (.failure s)).loading = false) ∧
    (∀ (st : AIService) (o : LoadOutcome) (text : List Char) (max_length : Nat),
      st.models_loaded = true →
      (summarize_text st o text max_length).state = st ∧
      (summarize_text st o text max_length).loadAwaited = false) ∧
    (∀ (st : AIService) (o : LoadOutcome) (text : List Char) (max_length : Nat),
      st.models_loaded = false → st.loading = false → 50 ≤ (clean_text text).length →
      (summarize_text st o text max_length).loadAwaited = true) := by
  refine ⟨?_, ?_, ?_⟩
  · intro st s h1 h2
    unfold load_models_async
    rw [h1, h2]
    simp
  · intro st o text max_length hml
    have he : ensureLoaded st o = st := ensureLoaded_of_loaded st o hml
    by_cases h1 : (text.isEmpty || (pyStrip text).isEmpty) = true
    · rw [summarize_blank st o text max_length h1]
      exact ⟨rfl, rfl⟩
    · have h1' : (text.isEmpty || (pyStrip text).isEmpty) = false :=
        Bool.eq_false_iff.mpr h1
      by_cases h2 : (clean_text text).length < 50
      · rw [summarize_short st o text max_length h1' h2]
        exact ⟨rfl, rfl⟩
      · have h := summarize_main_awaited st o text max_length h1' (by omega)
        refine ⟨h.2.trans he, ?_⟩
        rw [h.1, hml]
        rfl
  · intro st o text max_length hml hld hlen
    have h := summarize_main_awaited st o text max_length (not_blank_of_50 hlen) hlen
    rw [h.1, hml, hld]
    rfl

/-- Witness for the amended C3: a failed attempt resets the flags; a loaded
service is never touched again; an idle not-loaded service re-runs the load
inside summarize. -/
theorem load_outcome_permanence_witness :
    ((load_models_async ⟨none, false, false⟩ (.failure none)).models_loaded = false ∧
      (load_models_async ⟨none, false, false⟩ (.failure none)).loading = false) ∧
    ((summarize_text ⟨some mOk, true, false⟩ (.failure none) aText 150).state =
        ⟨some mOk, true, false⟩ ∧
      (summarize_text ⟨some mOk, true, false⟩ (.failure none) aText 150).loadAwaited = false) ∧
    (summarize_text AIService.init (.failure none) aText 150).loadAwaited = true :=
  ⟨load_outcome_permanence.1 ⟨none, false, false⟩ none rfl rfl,
   load_outcome_permanence.2.1 ⟨some mOk, true, false⟩ (.failure none) aText 150 rfl,
   load_outcome_permanence.2.2 AIService.init (.failure none) aText 150 rfl rfl (by decide)⟩

/-- Counterexample to C5: when an exception is raised during inference, the
returned fallback truncates the ORIGINAL `text` argument, not the cleaned
text — on an input whose cleaned form differs (an HTML tag prefix), the
returned summary differs from the claimed first-`max_length`-characters of
the cleaned text. -/
theorem exception_fallback_counterexample :
    (summarize_text ⟨some mFail, true, false⟩ (.failure none) cxText 10).response.summary ≠
      (clean_text cxText).take 10 ++ ellipsis ∧
    (summarize_text ⟨some mFail, true, false⟩ (.failure none) cxText 10).response =
      ⟨cxText.take 10 ++ ellipsis, 0⟩ := by
  constructor
  · decide
  · decide

/-- C5 (amended): every exception raised during dispatch or inference
(a raised pipeline call, or the failing `result[0]` of an empty result list)
is caught at the summarize boundary and never propagated; the call then
returns the truncation fallback computed from the ORIGINAL text argument
(first `max_length` characters plus the ellipsis marker if truncated) with
confidence 0.0. -/
theorem exception_truncation_fallback (st : AIService) (o : LoadOutcome) (text : List Char)
    (max_length : Nat) (m : Model) (hlen : 50 ≤ (clean_text text).length)
    (hm : (ensureLoaded st o).summarizer = some m)
    (hex : m (clean_text text) max_length (min 30 ((clean_text text).length / 4)) = .error () ∨
           m (clean_text text) max_length (min 30 ((clean_text text).length / 4)) = .ok []) :
    (summarize_text st o text max_length).response = ⟨excFallback text max_length, 0⟩ := by
  rw [summarize_main_some st o text max_length (not_blank_of_50 hlen) hlen m hm]
  rcases hex with hex | hex <;> rw [hex]

/-- Witness for the amended C5 at a raising model. -/
theorem exception_truncation_fallback_witness :
    (summarize_text ⟨some mFail, true, false⟩ (.failure none) cxText 10).response =
      ⟨excFallback cxText 10, 0⟩ :=
  exception_truncation_fallback ⟨some mFail, true, false⟩ (.failure none) cxText 10 mFail
    (by decide) rfl (Or.inl rfl)

/-- C10: fallback-length bound.  On both fallback paths of `summarize_text`
(model unavailable, and exception caught), the returned summary has length at
most `max_length + 3`: truncation keeps the first `max_length` characters and
the ellipsis marker is the three-character string. -/
theorem fallback_length_bound (st : AIService) (o : LoadOutcome) (text : List Char)
    (max_length : Nat) (hlen : 50 ≤ (clean_text text).length) :
    ellipsis.length = 3 ∧
    ((ensureLoaded st o).summarizer = none →
      (summarize_text st o text max_length).response.summary.length ≤ max_length + 3) ∧
    (∀ m : Model, (ensureLoaded st o).summarizer = some m →
      (m (clean_text text) max_length (min 30 ((clean_text text).length / 4)) = .error () ∨
       m (clean_text text) max_length (min 30 ((clean_text text).length / 4)) = .ok []) →
      (summarize_text st o text max_length).response.summary.length ≤ max_length + 3) := by
  refine ⟨rfl, ?_, ?_⟩
  · intro hna
    rw [summarize_main_none st o text max_length (not_blank_of_50 hlen) hlen hna]
    dsimp only
    by_cases h : max_length < (clean_text text).length
    · rw [if_pos h]
      simp only [List.length_append, List.length_take]
      have : ellipsis.length = 3 := rfl
      omega
    · rw [if_neg h]
      omega
  · intro m hm hex
    rw [summarize_main_some st o text max_length (not_blank_of_50 hlen) hlen m hm]
    have hb : (excFallback text max_length).length ≤ max_length + 3 := by
      unfold excFallback
      by_cases h : max_length < text.length
      · rw [if_pos h]
        simp only [List.length_append, List.length_take]
        have : ellipsis.length = 3 := rfl
        omega
      · rw [if_neg h]
        omega
    rcases hex with hex | hex <;> rw [hex] <;> exact hb

/-- Witness for C10: both fallback paths at concrete inputs stay within
`max_length + 3`. -/
theorem fallback_length_bound_witness :
    ellipsis.length = 3 ∧
    (summarize_text ⟨none, false, true⟩ (.failure none) aText 10).response.summary.length
      ≤ 10 + 3 ∧
    (summarize_text ⟨some mFail, true, false⟩ (.failure none) aText 10).response.summary.length
      ≤ 10 + 3 :=
  ⟨(fallback_length_bound ⟨none, false, true⟩ (.failure none) aText 10 (by decide)).1,
   (fallback_length_bound ⟨none, false, true⟩ (.failure none) aText 10 (by decide)).2.1 rfl,
   (fallback_length_bound ⟨some mFail, true, false⟩ (.failure none) aText 10
      (by decide)).2.2 mFail rfl (Or.inl rfl)⟩

/-! Calendar efficiency. -/

theorem foldl_count {α : Type} (l : List α) :
    ∀ n : Nat, l.foldl (fun acc _ => acc + 1) n = n + l.length := by
  induction l with
  | nil => intro n; simp
  | cons a l ih =>
      intro n
      simp only [List.foldl_cons, List.length_cons, ih]
      omega

/-- Counterexample to C7: on the empty event list the code returns a dict
with no `estimated_meeting_hours` key at all (modelled as `none`), not one
mapping it to 0 as the claim states. -/
theorem calendar_empty_counterexample :
    analyze_calendar_efficiency ([] : List Unit) ≠
      (⟨0, some 0, []⟩ : EfficiencyResult) := by
  decide

/-- C7 (amended): `analyze_calendar_efficiency([])` returns total 0 and no
suggestions, with the `estimated_meeting_hours` key absent; on any non-empty
list of `n` events it returns total `n` and estimated hours `n` (each event
counted as exactly one hour, the records themselves ignored), with the
meeting-load warning exactly when hours exceed 6 and the density warning
exactly when the count exceeds 8, the load warning preceding the density
warning. -/
theorem calendar_efficiency {α : Type} (events : List α) :
    (events = [] → analyze_calendar_efficiency events = ⟨0, none, []⟩) ∧
    (events ≠ [] →
      analyze_calendar_efficiency events =
        ⟨events.length, some events.length,
          (if 6 < events.length then [overSixHoursWarning] else []) ++
            (if 8 < events.length then [highDensityWarning] else [])⟩) := by
  constructor
  · intro h
    subst h
    rfl
  · intro h
    unfold analyze_calendar_efficiency
    rw [if_neg (by simp [h])]
    dsimp only
    rw [foldl_count events 0]
    simp

/-- Witness for C7: the empty case and the 9-event case from the spec. -/
theorem calendar_efficiency_witness :
    analyze_calendar_efficiency ([] : List Unit) = ⟨0, none, []⟩ ∧
    analyze_calendar_efficiency (List.replicate 9 ()) =
      ⟨9, some 9, [overSixHoursWarning, highDensityWarning]⟩ := by
  constructor
  · exact (calendar_efficiency ([] : List Unit)).1 rfl
  · have h := (calendar_efficiency (List.replicate 9 ())).2 (by decide)
    simpa using h

/-! Task extraction. -/

theorem addTask_nodup {tasks : List (List Char)} (m : List Char) (h : tasks.Nodup) :
    (addTask tasks m).Nodup := by
  unfold addTask
  by_cases hc : 10 < (pyStrip m).length ∧ ¬ pyStrip m ∈ tasks
  · rw [if_pos hc]
    simp [List.nodup_append, h, hc.2]
  · rw [if_neg hc]
    exact h

theorem addTask_mem {tasks : List (List Char)} {m t : List Char}
    (h : t ∈ addTask tasks m) : t ∈ tasks ∨ (t = pyStrip m ∧ 10 < t.length) := by
  unfold addTask at h
  by_cases hc : 10 < (pyStrip m).length ∧ ¬ pyStrip m ∈ tasks
  · rw [if_pos hc] at h
    rcases List.mem_append.mp h with h | h
    · exact Or.inl h
    · simp only [List.mem_singleton] at h
      subst h
      exact Or.inr ⟨rfl, hc.1⟩
  · rw [if_neg hc] at h
    exact Or.inl h

theorem foldl_addTask_nodup (ms : List (List Char)) :
    ∀ tasks : List (List Char), tasks.Nodup → (ms.foldl addTask tasks).Nodup := by
  induction ms with
  | nil => intro tasks h; exact h
  | cons m ms ih =>
      intro tasks h
      exact ih (addTask tasks m) (addTask_nodup m h)

theorem foldl_addTask_mem (ms : List (List Char)) :
    ∀ (tasks : List (List Char)) (t : List Char), t ∈ ms.foldl addTask tasks →
      t ∈ tasks ∨ ∃ mtch ∈ ms, t = pyStrip mtch ∧ 10 < t.length := by
  induction ms with
  | nil => intro tasks t h; exact Or.inl h
  | cons m ms ih =>
      intro tasks t h
      rcases ih (addTask tasks m) t h with h | ⟨mtch, hm, he⟩
      · rcases addTask_mem h with h | h
        · exact Or.inl h
        · exact Or.inr ⟨m, List.mem_cons_self _ _, h⟩
      · exact Or.inr ⟨mtch, List.mem_cons_of_mem _ hm, he⟩

theorem patterns_fold_nodup (text : List Char) (ps : List TaskPattern) :
    ∀ tasks : List (List Char), tasks.Nodup →
      (ps.foldl (fun tasks p => (findall p text).foldl addTask tasks) tasks).Nodup := by
  induction ps with
  | nil => intro tasks h; exact h
  | cons p ps ih =>
      intro tasks h
      exact ih _ (foldl_addTask_nodup (findall p text) tasks h)

theorem patterns_fold_mem (text : List Char) (ps : List TaskPattern) :
    ∀ (tasks : List (List Char)) (t : List Char),
      t ∈ ps.foldl (fun tasks p => (findall p text).foldl addTask tasks) tasks →
      t ∈ tasks ∨ ∃ p ∈ ps, ∃ mtch ∈ findall p text, t = pyStrip mtch ∧ 10 < t.length := by
  induction ps with
  | nil => intro tasks t h; exact Or.inl h
  | cons p ps ih =>
      intro tasks t h
      rcases ih _ t h with h | ⟨q, hq, mtch, hm, he⟩
      · rcases foldl_addTask_mem (findall p text) tasks t h with h | ⟨mtch, hm, he⟩
        · exact Or.inl h
        · exact Or.inr ⟨p, List.mem_cons_self _ _, mtch, hm, he⟩
      · exact Or.inr ⟨q, List.mem_cons_of_mem _ hq, mtch, hm, he⟩

/-- C9: `extract_tasks` contract.  The empty input yields the empty
sequence; every result has at most 5 entries, pairwise distinct under exact
string equality; and every entry is the stripped form of a match reported by
one of the five patterns (collected over `task_patterns` in the fixed source
order), with stripped length strictly greater than 10. -/
theorem extract_tasks_contract :
    extract_tasks [] = [] ∧
    (∀ text : List Char, (extract_tasks text).length ≤ 5) ∧
    (∀ text : List Char, (extract_tasks text).Nodup) ∧
    (∀ (text : List Char), ∀ t ∈ extract_tasks text,
      10 < t.length ∧ ∃ p ∈ task_patterns, ∃ mtch ∈ findall p text, t = pyStrip mtch) := by
  refine ⟨by decide, ?_, ?_, ?_⟩
  · intro text
    exact List.length_take_le 5 _
  · intro text
    exact (List.take_sublist 5 _).nodup
      (patterns_fold_nodup text task_patterns [] List.nodup_nil)
  · intro text t ht
    have h := List.mem_of_mem_take ht
    rcases patterns_fold_mem text task_patterns [] t h with h | ⟨p, hp, mtch, hm, he, hlen⟩
    · simp at h
    · exact ⟨hlen, p, hp, mtch, hm, he⟩

/-- Witness for C9 at a concrete email-like sentence: the first imperative
capture is extracted, stripped, longer than 10 characters. -/
theorem extract_tasks_contract_witness :
    10 < ("update the schedule now".data).length ∧
    ∃ p ∈ task_patterns, ∃ mtch ∈ findall p "please update the schedule now".data,
      "update the schedule now".data = pyStrip mtch :=
  extract_tasks_contract.2.2.2 "please update the schedule now".data
    "update the schedule now".data (by decide)

end Backend
